import Mathlib

/-!
# Fleet Scheduler — verification of the spec's claims against the source

Shallow embedding of the fleet/allocation core of the repository
(`src/src/database.py` and the classification logic of `src/app.py`).

Modelling conventions:
* A calendar date is an `Int`: the number of days since 2024-01-01, which is a
  Monday.  Python's `date.weekday()` (Monday = 0) is therefore `d % 7`
  (`Int.emod` is non-negative for a positive modulus, exactly like Python's
  `%`).  Date order is the integer order.  The database stores `week_start`,
  `start_date` and `end_date` as ISO-8601 `TEXT`; for four-digit years the
  lexicographic order used by the SQL comparisons coincides with date order,
  so `Int` comparisons model them faithfully.
* `SERIAL` primary keys are `Nat`; the state carries the next value of each
  sequence.
* Python `int` columns (`device_count`, `total_fleet`, `under_repair`) are
  `Int`: nothing in the code bounds them and `available` can be negative.
* Each SQL statement is embedded as a pure function on the database state,
  following the text of the statement.
-/

/-- A row of the `device_types` table (`init_db` in `database.py`). -/
structure DeviceTypeRow where
  id : Nat
  name : String
  total_fleet : Int
  under_repair : Int
deriving DecidableEq, Repr

/-- A row of the `deployments` table (`init_db` in `database.py`). -/
structure DeploymentRow where
  id : Nat
  project_id : Nat
  venue : String
  location : String
  start_date : Int
  end_date : Int
  device_type_id : Nat
  default_device_count : Int
  app_type : String
  notes : String
deriving DecidableEq, Repr

/-- A row of the `weekly_allocations` table (`init_db` in `database.py`). -/
structure AllocRow where
  id : Nat
  deployment_id : Nat
  week_start : Int
  device_count : Int
deriving DecidableEq, Repr

/-- The database state: the three tables the allocation core touches, plus the
`SERIAL` sequences for `deployments.id` and `weekly_allocations.id`. -/
structure DB where
  device_types : List DeviceTypeRow
  deployments : List DeploymentRow
  weekly_allocations : List AllocRow
  next_deployment_id : Nat
  next_allocation_id : Nat
deriving DecidableEq, Repr

/-! ## Week-grid utility (`_week_mondays` in `database.py`)

```python
def _week_mondays(start, end):
    monday = start - timedelta(days=start.weekday())
    weeks = []
    while monday <= end:
        weeks.append(monday)
        monday += timedelta(days=7)
    return weeks
```
-/

/-- The `while monday <= end` loop of `_week_mondays`, written with an
explicit iteration budget so that it is structurally recursive and evaluates
by kernel reduction.  Each pass appends `monday` and advances it by 7, so
`(end + 1 - monday).toNat` passes always suffice; with that budget the
function computes exactly what the unbounded loop computes. -/
def mondaysFromFuel : Nat → Int → Int → List Int
  | 0, _, _ => []
  | fuel + 1, m, e => if m ≤ e then m :: mondaysFromFuel fuel (m + 7) e else []

/-- The `while monday <= end` loop of `_week_mondays`. -/
def mondaysFrom (m e : Int) : List Int :=
  mondaysFromFuel (e + 1 - m).toNat m e

/-- `_week_mondays(start, end)`: `start.weekday()` is `start % 7` under the
days-since-Monday-2024-01-01 encoding. -/
def _week_mondays (start e : Int) : List Int :=
  mondaysFrom (start - start % 7) e

/-! ## Weekly-allocation seeding loop

`create_deployment` and `regenerate_weekly_allocations` both run
```python
for monday in _week_mondays(start_date, end_date):
    cur.execute("INSERT INTO weekly_allocations (deployment_id, week_start, device_count) VALUES ...",
                (deployment_id, str(monday), default_count))
```
each `INSERT` drawing the next `SERIAL` id. -/

/-- One `INSERT INTO weekly_allocations` per week anchor, with consecutive
`SERIAL` ids starting at `nextId`. -/
def seedRows (nextId depId : Nat) (c : Int) : List Int → List AllocRow
  | [] => []
  | m :: ms => ⟨nextId, depId, m, c⟩ :: seedRows (nextId + 1) depId c ms

/-! ## Deployments CRUD (`database.py`) -/

/-- `create_deployment`: insert the deployment row (taking the next `SERIAL`
id), then insert one `weekly_allocations` row per anchor of
`_week_mondays(start_date, end_date)` at `default_device_count`, and commit.
Returns the new deployment id together with the new state.  The function
performs no validation. -/
def create_deployment (db : DB) (project_id : Nat) (venue location : String)
    (start_date end_date : Int) (device_type_id : Nat)
    (default_device_count : Int) (app_type : String) (notes : String) :
    Nat × DB :=
  let depId := db.next_deployment_id
  let dep : DeploymentRow :=
    ⟨depId, project_id, venue, location, start_date, end_date,
     device_type_id, default_device_count, app_type, notes⟩
  let mondays := _week_mondays start_date end_date
  let news := seedRows db.next_allocation_id depId default_device_count mondays
  (depId,
   { db with
      deployments := db.deployments ++ [dep]
      weekly_allocations := db.weekly_allocations ++ news
      next_deployment_id := depId + 1
      next_allocation_id := db.next_allocation_id + mondays.length })

/-- The partial field-set of `update_deployment(deployment_id, **kwargs)`:
each field of the `deployments` row that the caller may mention. -/
structure DeploymentPatch where
  project_id : Option Nat := none
  venue : Option String := none
  location : Option String := none
  start_date : Option Int := none
  end_date : Option Int := none
  device_type_id : Option Nat := none
  default_device_count : Option Int := none
  app_type : Option String := none
  notes : Option String := none
deriving DecidableEq

/-- `SET k = v` for every keyword argument present in the patch. -/
def applyPatch (p : DeploymentPatch) (d : DeploymentRow) : DeploymentRow :=
  { d with
      project_id := p.project_id.getD d.project_id
      venue := p.venue.getD d.venue
      location := p.location.getD d.location
      start_date := p.start_date.getD d.start_date
      end_date := p.end_date.getD d.end_date
      device_type_id := p.device_type_id.getD d.device_type_id
      default_device_count := p.default_device_count.getD d.default_device_count
      app_type := p.app_type.getD d.app_type
      notes := p.notes.getD d.notes }

/-- `update_deployment`: `UPDATE deployments SET ... WHERE id = %s`.  Only the
`deployments` table is mentioned; `weekly_allocations` is untouched. -/
def update_deployment (db : DB) (deployment_id : Nat) (p : DeploymentPatch) : DB :=
  { db with
      deployments :=
        db.deployments.map fun d =>
          if d.id = deployment_id then applyPatch p d else d }

/-- `delete_deployment`: `DELETE FROM deployments WHERE id = %s`; the
`ON DELETE CASCADE` on `weekly_allocations.deployment_id` removes the
deployment's allocation rows. -/
def delete_deployment (db : DB) (deployment_id : Nat) : DB :=
  { db with
      deployments := db.deployments.filter fun d => d.id ≠ deployment_id
      weekly_allocations :=
        db.weekly_allocations.filter fun a => a.deployment_id ≠ deployment_id }

/-! ## Weekly Allocations (`database.py`) -/

/-- `update_weekly_allocation`:
`UPDATE weekly_allocations SET device_count = %s WHERE id = %s`.
No validation of `device_count` is performed. -/
def update_weekly_allocation (db : DB) (allocation_id : Nat)
    (device_count : Int) : DB :=
  { db with
      weekly_allocations :=
        db.weekly_allocations.map fun a =>
          if a.id = allocation_id then { a with device_count := device_count }
          else a }

/-- `bulk_update_allocations_from`:
`UPDATE weekly_allocations SET device_count = %s WHERE deployment_id = %s AND week_start >= %s`. -/
def bulk_update_allocations_from (db : DB) (deployment_id : Nat)
    (new_count : Int) (from_date : Int) : DB :=
  { db with
      weekly_allocations :=
        db.weekly_allocations.map fun a =>
          if a.deployment_id = deployment_id ∧ from_date ≤ a.week_start then
            { a with device_count := new_count }
          else a }

/-- `regenerate_weekly_allocations`:
`DELETE FROM weekly_allocations WHERE deployment_id = %s`, then re-seed one
row per anchor of `_week_mondays(start_date, end_date)` at `default_count`. -/
def regenerate_weekly_allocations (db : DB) (deployment_id : Nat)
    (start_date end_date : Int) (default_count : Int) : DB :=
  let mondays := _week_mondays start_date end_date
  { db with
      weekly_allocations :=
        (db.weekly_allocations.filter fun a => a.deployment_id ≠ deployment_id)
          ++ seedRows db.next_allocation_id deployment_id default_count mondays
      next_allocation_id := db.next_allocation_id + mondays.length }

/-! ## Fleet-usage aggregation (`get_fleet_usage_by_week` in `database.py`)

```sql
SELECT wa.week_start, dt.id, dt.name, dt.total_fleet, dt.under_repair,
       SUM(wa.device_count) as total_in_use
FROM weekly_allocations wa
JOIN deployments d ON wa.deployment_id = d.id
JOIN device_types dt ON d.device_type_id = dt.id
WHERE wa.week_start >= %s AND wa.week_start <= %s [AND dt.id = %s]
GROUP BY wa.week_start, dt.id, dt.name, dt.total_fleet, dt.under_repair
ORDER BY wa.week_start, dt.name
```
followed in Python by `d["available"] = d["total_fleet"] - d["under_repair"] - d["total_in_use"]`.
-/

/-- One tuple of the three-table join, before grouping: the allocation's
`week_start` and `device_count` together with the joined `device_types` row. -/
structure JoinRow where
  week_start : Int
  device_count : Int
  dt : DeviceTypeRow
deriving DecidableEq, Repr

/-- The join tuples one allocation row contributes: every `deployments` row
matching `wa.deployment_id = d.id` paired with every `device_types` row
matching `d.device_type_id = dt.id`. -/
def allocJoinRows (deps : List DeploymentRow) (dts : List DeviceTypeRow)
    (a : AllocRow) : List JoinRow :=
  (deps.filter fun d => d.id = a.deployment_id).flatMap fun d =>
    (dts.filter fun t => t.id = d.device_type_id).map fun t =>
      ⟨a.week_start, a.device_count, t⟩

/-- `FROM weekly_allocations wa JOIN deployments d ON wa.deployment_id = d.id
JOIN device_types dt ON d.device_type_id = dt.id`, parameterised by the three
table contents. -/
def joinAux (allocs : List AllocRow) (deps : List DeploymentRow)
    (dts : List DeviceTypeRow) : List JoinRow :=
  allocs.flatMap (allocJoinRows deps dts)

/-- The join applied to the database state. -/
def joinedRows (db : DB) : List JoinRow :=
  joinAux db.weekly_allocations db.deployments db.device_types

/-- The optional device-type filter.  In Python the guard is
`if device_type_id:`, so both `None` and `0` mean "no filter". -/
def dtFilterPass (filt : Option Nat) (dtid : Nat) : Bool :=
  match filt with
  | none => true
  | some i => if i = 0 then true else dtid = i

/-- The `WHERE` clause applied to the join. -/
def filteredRows (db : DB) (start_date end_date : Int) (filt : Option Nat) :
    List JoinRow :=
  (joinedRows db).filter fun j =>
    start_date ≤ j.week_start ∧ j.week_start ≤ end_date
      ∧ dtFilterPass filt j.dt.id

/-- The `GROUP BY` key: `(wa.week_start, dt.id, dt.name, dt.total_fleet,
dt.under_repair)` — i.e. the week anchor together with the whole
`device_types` row. -/
def rowKey (j : JoinRow) : Int × DeviceTypeRow :=
  (j.week_start, j.dt)

/-- An output row of `get_fleet_usage_by_week`, including the `available`
field added in Python. -/
structure FleetRow where
  week_start : Int
  device_type_id : Nat
  device_type_name : String
  total_fleet : Int
  under_repair : Int
  total_in_use : Int
  available : Int
deriving DecidableEq, Repr

/-- One grouped row: `SUM(wa.device_count)` over the group, and
`available = total_fleet - under_repair - total_in_use` (Python, not SQL;
never clamped). -/
def buildRow (rows : List JoinRow) (k : Int × DeviceTypeRow) : FleetRow :=
  let tiu := ((rows.filter fun j => rowKey j = k).map fun j => j.device_count).sum
  { week_start := k.1
    device_type_id := k.2.id
    device_type_name := k.2.name
    total_fleet := k.2.total_fleet
    under_repair := k.2.under_repair
    total_in_use := tiu
    available := k.2.total_fleet - k.2.under_repair - tiu }

/-- `ORDER BY wa.week_start, dt.name` as a Boolean total preorder on output
rows (ISO-8601 `TEXT` order on `week_start` is date order). -/
def rowLE (a b : FleetRow) : Bool :=
  a.week_start < b.week_start
    ∨ (a.week_start = b.week_start ∧ a.device_type_name ≤ b.device_type_name)

/-- Insertion step of the `ORDER BY` sort. -/
def insertRow (r : FleetRow) : List FleetRow → List FleetRow
  | [] => [r]
  | x :: xs => if rowLE r x then r :: x :: xs else x :: insertRow r xs

/-- The `ORDER BY` sort (insertion sort; only the multiset of rows matters to
the claims below). -/
def sortRows : List FleetRow → List FleetRow
  | [] => []
  | x :: xs => insertRow x (sortRows xs)

/-- `get_fleet_usage_by_week(start_date, end_date, device_type_id)`: join,
filter, group (one output row per distinct group key of the filtered join),
aggregate, order, then add `available` (folded into `buildRow`). -/
def get_fleet_usage_by_week (db : DB) (start_date end_date : Int)
    (device_type_id : Option Nat) : List FleetRow :=
  let rows := filteredRows db start_date end_date device_type_id
  sortRows (((rows.map rowKey).dedup).map (buildRow rows))

/-- The device type referenced by an allocation row's owning deployment
(`none` when the deployment row does not exist). -/
def ownerDeviceType (db : DB) (a : AllocRow) : Option Nat :=
  (db.deployments.find? fun d => d.id = a.deployment_id).map
    fun d => d.device_type_id

/-! ## Presentation-layer classification (`app.py`)

`render_dashboard` (lines 108–109):
```python
alerts = [r for r in future_usage if r["available"] < 0]
warnings = [r for r in future_usage if 0 <= r["available"] < r["total_fleet"] * 0.1]
```
`highlight_shortage` inside `render_fleet` (lines 634–639):
```python
if row[col_available] < 0: red
elif row[col_available] < row[col_fleet] * 0.1: yellow
else: none
```
The literal `0.1` is an IEEE double; for every integer fleet size in the
operating range the comparison `available < total_fleet * 0.1` agrees with
the exact rational comparison used here. -/

/-- The dashboard's shortage list. -/
def dashboardAlerts (usage : List FleetRow) : List FleetRow :=
  usage.filter fun r => r.available < 0

/-- The dashboard's warning list. -/
def dashboardWarnings (usage : List FleetRow) : List FleetRow :=
  usage.filter fun r =>
    0 ≤ r.available ∧ (r.available : ℚ) < (r.total_fleet : ℚ) * (1 / 10)

/-- The three row styles `highlight_shortage` can return. -/
inductive Highlight where
  | red
  | yellow
  | plain
deriving DecidableEq, Repr

/-- `highlight_shortage` from `render_fleet`. -/
def highlight_shortage (r : FleetRow) : Highlight :=
  if r.available < 0 then .red
  else if (r.available : ℚ) < (r.total_fleet : ℚ) * (1 / 10) then .yellow
  else .plain

/-! ## Deployment-creation flow of the Projects page (`render_projects`,
`app.py` lines 512–527)

```python
if st.form_submit_button(...):
    if d_venue and d_start and d_end and d_count > 0:
        db.create_deployment(...)
    else:
        st.error(...)
```
`d_start` and `d_end` are `date` objects and always truthy; `d_venue` is
truthy iff non-empty.  `some db'` models a successful submission, `none` the
error path (no database call at all). -/

/-- The submission conditional of the "Add deployment" form. -/
def render_projects_submit (db : DB) (project_id : Nat)
    (venue location : String) (start_date end_date : Int)
    (device_type_id : Nat) (count : Int) (app_type : String) : Option DB :=
  if venue ≠ "" ∧ 0 < count then
    some (create_deployment db project_id venue location start_date end_date
            device_type_id count app_type "").2
  else
    none

/-! ## Week-grid lemmas -/

theorem mondaysFromFuel_nil (f : Nat) (m e : Int) (h : ¬ m ≤ e) :
    mondaysFromFuel f m e = [] := by
  cases f with
  | zero => rfl
  | succ f => simp [mondaysFromFuel, h]

theorem mem_mondaysFromFuel {f : Nat} {e : Int} :
    ∀ {m x : Int}, x ∈ mondaysFromFuel f m e →
      m ≤ x ∧ x ≤ e ∧ x % 7 = m % 7 := by
  induction f with
  | zero => intro m x hx; simp [mondaysFromFuel] at hx
  | succ f ih =>
    intro m x hx
    by_cases h : m ≤ e
    · simp only [mondaysFromFuel, if_pos h, List.mem_cons] at hx
      rcases hx with rfl | hx
      · exact ⟨le_refl _, h, rfl⟩
      · obtain ⟨h1, h2, h3⟩ := ih hx
        exact ⟨by omega, h2, by omega⟩
    · rw [mondaysFromFuel_nil _ _ _ h] at hx
      simp at hx

theorem mondaysFromFuel_head (f : Nat) (m e : Int)
    (hf : (e + 1 - m).toNat ≤ f) (h : m ≤ e) :
    (mondaysFromFuel f m e).head? = some m := by
  cases f with
  | zero => omega
  | succ f => simp [mondaysFromFuel, h]

theorem mondaysFromFuel_head_eq (f : Nat) (m e b : Int)
    (hb : (mondaysFromFuel f m e).head? = some b) : b = m := by
  cases f with
  | zero => simp [mondaysFromFuel] at hb
  | succ f =>
    by_cases h : m ≤ e
    · simp [mondaysFromFuel, h] at hb
      omega
    · simp [mondaysFromFuel, h] at hb

theorem mondaysFromFuel_chain (f : Nat) {e : Int} :
    ∀ m : Int, List.Chain' (fun a b => b = a + 7) (mondaysFromFuel f m e) := by
  induction f with
  | zero => intro m; simp [mondaysFromFuel]
  | succ f ih =>
    intro m
    by_cases h : m ≤ e
    · simp only [mondaysFromFuel, if_pos h]
      rw [List.chain'_cons']
      refine ⟨?_, ih (m + 7)⟩
      intro b hb
      exact mondaysFromFuel_head_eq f (m + 7) e b hb
    · rw [mondaysFromFuel_nil _ _ _ h]
      simp

theorem mondaysFromFuel_last {e : Int} :
    ∀ (f : Nat) (m : Int), (e + 1 - m).toNat ≤ f → m ≤ e →
      ∃ w, (mondaysFromFuel f m e).getLast? = some w ∧ w ≤ e ∧ e - w ≤ 6 := by
  intro f
  induction f with
  | zero => intro m hf h; omega
  | succ f ih =>
    intro m hf h
    simp only [mondaysFromFuel, if_pos h]
    by_cases h7 : m + 7 ≤ e
    · obtain ⟨w, hw, hwe, hwd⟩ := ih (m + 7) (by omega) h7
      refine ⟨w, ?_, hwe, hwd⟩
      cases hrest : mondaysFromFuel f (m + 7) e with
      | nil => rw [hrest] at hw; simp at hw
      | cons r rs =>
        rw [hrest] at hw
        rw [List.getLast?_cons_cons]
        exact hw
    · rw [mondaysFromFuel_nil f (m + 7) e h7]
      exact ⟨m, rfl, h, by omega⟩

theorem mondaysFromFuel_nodup (f : Nat) {e : Int} :
    ∀ m : Int, (mondaysFromFuel f m e).Nodup := by
  induction f with
  | zero => intro m; simp [mondaysFromFuel]
  | succ f ih =>
    intro m
    by_cases h : m ≤ e
    · simp only [mondaysFromFuel, if_pos h]
      refine List.nodup_cons.2 ⟨?_, ih (m + 7)⟩
      intro hmem
      have := mem_mondaysFromFuel hmem
      omega
    · rw [mondaysFromFuel_nil _ _ _ h]
      simp

theorem mondaysFromFuel_singleton (f : Nat) (m e : Int) (hf : 1 ≤ f)
    (h1 : m ≤ e) (h2 : e < m + 7) : mondaysFromFuel f m e = [m] := by
  cases f with
  | zero => omega
  | succ f =>
    simp [mondaysFromFuel, h1, mondaysFromFuel_nil f (m + 7) e (by omega)]

/-- Every anchor produced by `_week_mondays` is a Monday (weekday 0). -/
theorem week_mondays_monday {s e x : Int} (hx : x ∈ _week_mondays s e) :
    x % 7 = 0 := by
  have := mem_mondaysFromFuel hx
  omega

/-- The anchors produced by `_week_mondays` are pairwise distinct. -/
theorem week_mondays_nodup (s e : Int) : (_week_mondays s e).Nodup :=
  mondaysFromFuel_nodup _ _

/-- `_week_mondays` is empty exactly when the range ends before the Monday of
the week containing `start`. -/
theorem week_mondays_nil_iff (s e : Int) :
    _week_mondays s e = [] ↔ e < s - s % 7 := by
  unfold _week_mondays mondaysFrom
  constructor
  · intro hnil
    by_contra hcon
    push_neg at hcon
    have := mondaysFromFuel_head _ _ _ (le_refl _) hcon
    rw [hnil] at this
    simp at this
  · intro hlt
    exact mondaysFromFuel_nil _ _ _ (by omega)

/-- For `start ≤ end` the week grid is non-empty. -/
theorem week_mondays_ne_nil (s e : Int) (h : s ≤ e) : _week_mondays s e ≠ [] := by
  intro hnil
  rw [week_mondays_nil_iff] at hnil
  have : 0 ≤ s % 7 := Int.emod_nonneg s (by norm_num)
  omega

/-- C3: for every pair of dates `start ≤ end`, `_week_mondays` returns a
non-empty list of dates in which every element is a Monday (weekday 0), the
first element is `start` minus `start`'s zero-based weekday offset (hence
`≤ start` and within 6 days of it), consecutive elements increase by exactly
7 days, the last element is `≤ end` and within 6 days of `end`, and
`start = end` yields exactly one anchor. -/
theorem week_grid_correct (s e : Int) (h : s ≤ e) :
    _week_mondays s e ≠ []
    ∧ (∀ x ∈ _week_mondays s e, x % 7 = 0)
    ∧ (_week_mondays s e).head? = some (s - s % 7)
    ∧ s - s % 7 ≤ s ∧ s - (s - s % 7) ≤ 6
    ∧ List.Chain' (fun a b => b = a + 7) (_week_mondays s e)
    ∧ (∃ w, (_week_mondays s e).getLast? = some w ∧ w ≤ e ∧ e - w ≤ 6)
    ∧ (s = e → (_week_mondays s e).length = 1) := by
  have hm : s - s % 7 ≤ e := by omega
  have hhead : (_week_mondays s e).head? = some (s - s % 7) :=
    mondaysFromFuel_head _ _ _ (le_refl _) hm
  refine ⟨?_, ?_, hhead, by omega, by omega, ?_, ?_, ?_⟩
  · intro hnil
    rw [hnil] at hhead
    simp at hhead
  · intro x hx
    exact week_mondays_monday hx
  · exact mondaysFromFuel_chain _ _
  · exact mondaysFromFuel_last _ _ (le_refl _) hm
  · intro hse
    subst hse
    unfold _week_mondays mondaysFrom
    rw [mondaysFromFuel_singleton _ _ _ (by omega) (by omega) (by omega)]
    rfl

/-- Witness for C3 at the spec's own example: `start = end = 2024-01-10`
(day 9, a Wednesday) yields the single anchor 2024-01-08 (day 7). -/
theorem week_grid_correct_witness :
    (9 : Int) ≤ 9 ∧ _week_mondays 9 9 = [7]
    ∧ (_week_mondays 9 9 ≠ []
       ∧ (∀ x ∈ _week_mondays 9 9, x % 7 = 0)
       ∧ (_week_mondays 9 9).head? = some (9 - 9 % 7)
       ∧ (9 : Int) - 9 % 7 ≤ 9 ∧ (9 : Int) - (9 - 9 % 7) ≤ 6
       ∧ List.Chain' (fun a b => b = a + 7) (_week_mondays 9 9)
       ∧ (∃ w, (_week_mondays 9 9).getLast? = some w ∧ w ≤ 9 ∧ 9 - w ≤ 6)
       ∧ ((9 : Int) = 9 → (_week_mondays 9 9).length = 1)) :=
  ⟨by norm_num, by decide, week_grid_correct 9 9 (by norm_num)⟩

/-! ## Seeding lemmas -/

theorem seedRows_map_pair (dep : Nat) (c : Int) :
    ∀ (ms : List Int) (n : Nat),
      (seedRows n dep c ms).map (fun a => (a.week_start, a.device_count))
        = ms.map fun m => (m, c) := by
  intro ms
  induction ms with
  | nil => intro n; rfl
  | cons m ms ih => intro n; simp [seedRows, ih]

theorem seedRows_deployment_id (dep : Nat) (c : Int) :
    ∀ (ms : List Int) (n : Nat) (a : AllocRow),
      a ∈ seedRows n dep c ms → a.deployment_id = dep := by
  intro ms
  induction ms with
  | nil => intro n a ha; simp [seedRows] at ha
  | cons m ms ih =>
    intro n a ha
    simp only [seedRows, List.mem_cons] at ha
    rcases ha with rfl | ha
    · rfl
    · exact ih _ _ ha

theorem seedRows_week_mem (dep : Nat) (c : Int) :
    ∀ (ms : List Int) (n : Nat) (a : AllocRow),
      a ∈ seedRows n dep c ms → a.week_start ∈ ms := by
  intro ms
  induction ms with
  | nil => intro n a ha; simp [seedRows] at ha
  | cons m ms ih =>
    intro n a ha
    simp only [seedRows, List.mem_cons] at ha
    rcases ha with rfl | ha
    · exact List.mem_cons_self _ _
    · exact List.mem_cons_of_mem _ (ih _ _ ha)

theorem seedRows_key_map (dep : Nat) (c : Int) :
    ∀ (ms : List Int) (n : Nat),
      (seedRows n dep c ms).map (fun a => (a.deployment_id, a.week_start))
        = ms.map fun m => (dep, m) := by
  intro ms
  induction ms with
  | nil => intro n; rfl
  | cons m ms ih => intro n; simp [seedRows, ih]

/-- C4: creating a deployment inserts exactly one weekly-allocation row per
anchor of the week grid of `[start_date, end_date]`, each carrying
`device_count = default_device_count` and `week_start` equal to its anchor;
the anchors are pairwise distinct and (for `start ≤ end`) non-empty, so each
anchor receives exactly one row.  The id-freshness hypothesis is what the
`SERIAL` primary key guarantees: no existing allocation row already carries
the id the new deployment receives. -/
theorem create_deployment_seeds (db : DB) (pid : Nat) (v l : String)
    (s e : Int) (dtid : Nat) (c : Int) (ap nts : String)
    (hse : s ≤ e)
    (hfresh : ∀ a ∈ db.weekly_allocations,
      a.deployment_id ≠ db.next_deployment_id) :
    (((create_deployment db pid v l s e dtid c ap nts).2.weekly_allocations.filter
          fun a => a.deployment_id
            = (create_deployment db pid v l s e dtid c ap nts).1).map
        fun a => (a.week_start, a.device_count))
      = (_week_mondays s e).map (fun m => (m, c))
    ∧ (_week_mondays s e).Nodup
    ∧ _week_mondays s e ≠ [] := by
  refine ⟨?_, week_mondays_nodup s e, week_mondays_ne_nil s e hse⟩
  show ((db.weekly_allocations
        ++ seedRows db.next_allocation_id db.next_deployment_id c
            (_week_mondays s e)).filter
      fun a => a.deployment_id = db.next_deployment_id).map _ = _
  rw [List.filter_append]
  have h1 : (db.weekly_allocations.filter
      fun a => a.deployment_id = db.next_deployment_id) = [] := by
    rw [List.filter_eq_nil_iff]
    intro a ha
    simp [hfresh a ha]
  have h2 : ((seedRows db.next_allocation_id db.next_deployment_id c
      (_week_mondays s e)).filter
        fun a => a.deployment_id = db.next_deployment_id)
      = seedRows db.next_allocation_id db.next_deployment_id c
          (_week_mondays s e) := by
    rw [List.filter_eq_self]
    intro a ha
    simp [seedRows_deployment_id _ _ _ _ _ ha]
  rw [h1, h2, List.nil_append, seedRows_map_pair]

/-- Witness for C4 at the spec's example: `start = 2024-01-01` (day 0),
`end = 2024-01-21` (day 20), `default_count = 5` yields exactly 3 rows,
anchored at days 0, 7, 14 (2024-01-01, 2024-01-08, 2024-01-15), each count 5. -/
theorem create_deployment_seeds_witness :
    (0 : Int) ≤ 20
    ∧ (∀ a ∈ (DB.mk [] [] [] 1 1).weekly_allocations,
        a.deployment_id ≠ (DB.mk [] [] [] 1 1).next_deployment_id)
    ∧ (((create_deployment (DB.mk [] [] [] 1 1) 1 "Venue" "" 0 20 1 5 "" "").2.weekly_allocations.filter
          fun a => a.deployment_id
            = (create_deployment (DB.mk [] [] [] 1 1) 1 "Venue" "" 0 20 1 5 "" "").1).map
        fun a => (a.week_start, a.device_count))
      = [((0 : Int), (5 : Int)), (7, 5), (14, 5)] :=
  ⟨by norm_num, by simp,
   by
    have h := create_deployment_seeds (DB.mk [] [] [] 1 1) 1 "Venue" "" 0 20 1 5
      "" "" (by norm_num) (by simp)
    rw [h.1]
    decide⟩

/-- C10: calling `create_deployment` with `end_date` strictly earlier than
the Monday of the ISO week containing `start_date` — possible only when
`end_date < start_date` — makes the week grid empty, so the call succeeds
(it is a total function, mirroring the absence of any validation or error
path in the source), inserts the deployment row, and inserts zero
weekly-allocation rows. -/
theorem create_deployment_empty_grid (db : DB) (pid : Nat) (v l : String)
    (s e : Int) (dtid : Nat) (c : Int) (ap nts : String)
    (h : e < s - s % 7) :
    e < s
    ∧ _week_mondays s e = []
    ∧ (create_deployment db pid v l s e dtid c ap nts).2.deployments
        = db.deployments
          ++ [⟨db.next_deployment_id, pid, v, l, s, e, dtid, c, ap, nts⟩]
    ∧ (create_deployment db pid v l s e dtid c ap nts).2.weekly_allocations
        = db.weekly_allocations := by
  have hnil : _week_mondays s e = [] := (week_mondays_nil_iff s e).2 h
  have hmod : 0 ≤ s % 7 := Int.emod_nonneg s (by norm_num)
  refine ⟨by omega, hnil, rfl, ?_⟩
  show db.weekly_allocations
      ++ seedRows db.next_allocation_id db.next_deployment_id c
          (_week_mondays s e) = db.weekly_allocations
  rw [hnil]
  simp [seedRows]

/-- Witness for C10: `start = day 8` (Monday 2024-01-08 is day 7, so day 8 is
a Tuesday), `end = day 3 < 7`: the deployment row is inserted and no
allocation row is. -/
theorem create_deployment_empty_grid_witness :
    (3 : Int) < 8 - 8 % 7
    ∧ ((3 : Int) < 8
       ∧ _week_mondays 8 3 = []
       ∧ (create_deployment (DB.mk [] [] [] 1 1) 1 "V" "" 8 3 1 4 "" "").2.deployments
           = (DB.mk [] [] [] 1 1).deployments
             ++ [⟨(DB.mk [] [] [] 1 1).next_deployment_id, 1, "V", "", 8, 3, 1, 4, "", ""⟩]
       ∧ (create_deployment (DB.mk [] [] [] 1 1) 1 "V" "" 8 3 1 4 "" "").2.weekly_allocations
           = (DB.mk [] [] [] 1 1).weekly_allocations) :=
  ⟨by norm_num, create_deployment_empty_grid (DB.mk [] [] [] 1 1) 1 "V" "" 8 3 1 4 "" "" (by norm_num)⟩

/-- C7: `update_deployment` applies an arbitrary partial field-set to a
deployment row and leaves the `weekly_allocations` table entirely unchanged:
no row is added, removed, or modified. -/
theorem update_deployment_preserves_allocations (db : DB) (deployment_id : Nat)
    (p : DeploymentPatch) :
    (update_deployment db deployment_id p).weekly_allocations
      = db.weekly_allocations := rfl

/-- C6: `bulk_update_allocations_from` keeps the allocation table the same
length, and row by row it sets `device_count = new_count` exactly on the
rows of the given deployment whose `week_start` is `≥ from_date` (leaving
their id, deployment and anchor unchanged) and returns every other row —
earlier weeks of that deployment and all rows of other deployments —
entirely unchanged. -/
theorem bulk_update_scope (db : DB) (deployment_id : Nat) (new_count : Int)
    (from_date : Int) :
    ((bulk_update_allocations_from db deployment_id new_count
        from_date).weekly_allocations).length
      = db.weekly_allocations.length
    ∧ ∀ i : Nat,
      (bulk_update_allocations_from db deployment_id new_count
          from_date).weekly_allocations[i]?
        = (db.weekly_allocations[i]?).map fun a =>
            if a.deployment_id = deployment_id ∧ from_date ≤ a.week_start then
              { a with device_count := new_count }
            else a := by
  refine ⟨List.length_map _ _, fun i => ?_⟩
  exact List.getElem?_map _ _ _

/-- C9 counterexample state: one device type, one deployment, one allocation
row with `device_count = 5`. -/
def dbNeg : DB :=
  ⟨[⟨1, "Audio Guide", 100, 10⟩], [⟨1, 1, "Hall", "", 0, 6, 1, 5, "", ""⟩],
   [⟨1, 1, 0, 5⟩], 2, 2⟩

/-- C9 is false as stated: `update_weekly_allocation` does not reject a
negative count — called with `new_count = -3` on a row holding 5, it sets the
row's `device_count` to `-3` instead of leaving it unchanged. -/
theorem update_weekly_allocation_negative_counterexample :
    (-3 : Int) < 0
    ∧ dbNeg.weekly_allocations.map (fun a => a.device_count) = [5]
    ∧ (update_weekly_allocation dbNeg 1 (-3)).weekly_allocations.map
        (fun a => a.device_count) = [-3] :=
  ⟨by norm_num, rfl, rfl⟩

/-- C9 amended: for every `new_count` — negative values included —
`update_weekly_allocation` sets the addressed row's `device_count` to
`new_count` (leaving its id, deployment and anchor unchanged) and leaves
every other row unchanged; the operation performs no validation, negative
counts being kept out only by the UI's `min_value=0` number-input widget. -/
theorem update_weekly_allocation_sets (db : DB) (allocation_id : Nat)
    (new_count : Int) :
    ((update_weekly_allocation db allocation_id
        new_count).weekly_allocations).length
      = db.weekly_allocations.length
    ∧ ∀ i : Nat,
      (update_weekly_allocation db allocation_id
          new_count).weekly_allocations[i]?
        = (db.weekly_allocations[i]?).map fun a =>
            if a.id = allocation_id then { a with device_count := new_count }
            else a := by
  refine ⟨List.length_map _ _, fun i => ?_⟩
  exact List.getElem?_map _ _ _

/-- C5 counterexample state: one device type, no projects/deployments yet. -/
def dbVal : DB := ⟨[⟨1, "Audio Guide", 100, 10⟩], [], [], 1, 1⟩

/-- C5 is false as stated: a submission whose end date (day 3) is strictly
before its start date (day 7), with a non-empty venue and a positive count,
is NOT rejected — the form's only guard is
`if d_venue and d_start and d_end and d_count > 0`, so the request is
persisted and a deployment row is inserted. -/
theorem create_validation_counterexample :
    (3 : Int) < 7
    ∧ render_projects_submit dbVal 1 "Hall A" "" 7 3 1 2 ""
        = some (create_deployment dbVal 1 "Hall A" "" 7 3 1 2 "" "").2
    ∧ ((render_projects_submit dbVal 1 "Hall A" "" 7 3 1 2 "").map
        fun db => db.deployments.length) = some 1
    ∧ dbVal.deployments.length = 0 := by
  refine ⟨by norm_num, ?_, ?_, rfl⟩
  · simp [render_projects_submit]
  · simp [render_projects_submit]
    rfl

/-- C5 amended: the deployment-creation flow rejects — with no persistence
mutation at all — exactly the requests whose venue is empty or whose default
device count is not strictly positive; it does not validate that the end
date is on or after the start date (such a request is persisted, inserting a
deployment row, with an empty week grid when the end precedes the start's
Monday), and it performs no device-type existence check of its own (the form
only offers existing device types; the store relies on the database foreign
key). -/
theorem create_validation_amended (db : DB) (project_id : Nat)
    (venue location : String) (start_date end_date : Int)
    (device_type_id : Nat) (count : Int) (app_type : String) :
    (venue = "" ∨ count ≤ 0 →
      render_projects_submit db project_id venue location start_date end_date
        device_type_id count app_type = none)
    ∧ (venue ≠ "" → 0 < count →
      render_projects_submit db project_id venue location start_date end_date
        device_type_id count app_type
        = some (create_deployment db project_id venue location start_date
            end_date device_type_id count app_type "").2) := by
  constructor
  · intro h
    have hneg : ¬ (venue ≠ "" ∧ 0 < count) := by
      rcases h with h | h
      · intro hc; exact hc.1 h
      · intro hc; omega
    simp [render_projects_submit, hneg]
  · intro h1 h2
    simp [render_projects_submit, h1, h2]

/-- Witness for C5 (amended): an empty venue and a non-positive count are
each rejected with no database change. -/
theorem create_validation_amended_witness :
    render_projects_submit dbVal 1 "" "" 0 7 1 2 "" = none
    ∧ render_projects_submit dbVal 1 "Hall A" "" 0 7 1 0 "" = none :=
  ⟨(create_validation_amended dbVal 1 "" "" 0 7 1 2 "").1 (Or.inl rfl),
   (create_validation_amended dbVal 1 "Hall A" "" 0 7 1 0 "").1
     (Or.inr (by norm_num))⟩

/-- A usage row with `total_fleet = 100`, `under_repair = 10` and the given
`total_in_use`, with `available` computed as the aggregator does. -/
def exampleUsageRow (total_in_use : Int) : FleetRow :=
  ⟨0, 1, "Audio Guide", 100, 10, total_in_use, 100 - 10 - total_in_use⟩

/-- C2: a usage row is classified a shortage (dashboard alert / red
highlight) iff `available < 0`, and a warning (dashboard warning / yellow
highlight) iff `0 ≤ available < 0.1 * total_fleet`; in particular with
`total_fleet = 100`, `under_repair = 10`: `total_in_use = 95`
(`available = -5`) is a shortage, `total_in_use = 82` (`available = 8`) is a
warning, and `total_in_use = 80` (`available = 10`) is neither. -/
theorem shortage_warning_classification :
    (∀ (usage : List FleetRow) (r : FleetRow),
      (r ∈ dashboardAlerts usage ↔ r ∈ usage ∧ r.available < 0)
      ∧ (r ∈ dashboardWarnings usage ↔ r ∈ usage ∧ 0 ≤ r.available
          ∧ (r.available : ℚ) < (r.total_fleet : ℚ) * (1 / 10)))
    ∧ (∀ r : FleetRow,
      (highlight_shortage r = .red ↔ r.available < 0)
      ∧ (highlight_shortage r = .yellow ↔ 0 ≤ r.available
          ∧ (r.available : ℚ) < (r.total_fleet : ℚ) * (1 / 10)))
    ∧ (exampleUsageRow 95).available = -5
    ∧ (exampleUsageRow 82).available = 8
    ∧ (exampleUsageRow 80).available = 10
    ∧ dashboardAlerts
        [exampleUsageRow 95, exampleUsageRow 82, exampleUsageRow 80]
        = [exampleUsageRow 95]
    ∧ dashboardWarnings
        [exampleUsageRow 95, exampleUsageRow 82, exampleUsageRow 80]
        = [exampleUsageRow 82]
    ∧ highlight_shortage (exampleUsageRow 95) = .red
    ∧ highlight_shortage (exampleUsageRow 82) = .yellow
    ∧ highlight_shortage (exampleUsageRow 80) = .plain := by
  refine ⟨?_, ?_, rfl, rfl, rfl, ?_, ?_, ?_, ?_, ?_⟩
  · intro usage r
    constructor
    · simp [dashboardAlerts, List.mem_filter]
    · simp [dashboardWarnings, List.mem_filter, and_assoc]
  · intro r
    constructor
    · constructor
      · intro h
        by_cases hlt : r.available < 0
        · exact hlt
        · simp [highlight_shortage, hlt] at h
          split at h <;> simp_all
      · intro h
        simp [highlight_shortage, h]
    · constructor
      · intro h
        by_cases hlt : r.available < 0
        · simp [highlight_shortage, hlt] at h
        · refine ⟨by omega, ?_⟩
          by_cases hq : (r.available : ℚ) < (r.total_fleet : ℚ) * (1 / 10)
          · exact hq
          · rw [one_div] at hq
            simp [highlight_shortage, hlt, hq] at h
      · intro ⟨h0, hq⟩
        rw [one_div] at hq
        have hlt : ¬ r.available < 0 := by omega
        simp [highlight_shortage, hlt, hq]
  · norm_num [dashboardAlerts, exampleUsageRow]
  · norm_num [dashboardWarnings, exampleUsageRow]
  · norm_num [highlight_shortage, exampleUsageRow]
  · norm_num [highlight_shortage, exampleUsageRow]
  · norm_num [highlight_shortage, exampleUsageRow]

/-! ## The allocation-store invariant (C8) -/

/-- Every allocation row's `week_start` is the Monday of the ISO week it
falls in (weekday 0 under the days-since-Monday encoding). -/
def MondayAligned (db : DB) : Prop :=
  ∀ a ∈ db.weekly_allocations, a.week_start % 7 = 0

/-- At most one allocation row per `(deployment, week_start)` pair. -/
def UniqueKeys (db : DB) : Prop :=
  (db.weekly_allocations.map fun a => (a.deployment_id, a.week_start)).Nodup

/-- The invariant of the `weekly_allocations` store (spec §3). -/
def AllocInvariant (db : DB) : Prop :=
  MondayAligned db ∧ UniqueKeys db

/-- What the `SERIAL` primary key of `deployments` guarantees on every
reachable state: every allocation row refers to a deployment id below the
sequence's next value, so a freshly created deployment can collide with no
existing row. -/
def AllocIdsBounded (db : DB) : Prop :=
  ∀ a ∈ db.weekly_allocations, a.deployment_id < db.next_deployment_id

/-- A count-only rewrite of the allocation table preserves the key map. -/
theorem map_key_of_count_rewrite (l : List AllocRow) (g : AllocRow → AllocRow)
    (hg : ∀ a, (g a).deployment_id = a.deployment_id
      ∧ (g a).week_start = a.week_start) :
    (l.map g).map (fun a => (a.deployment_id, a.week_start))
      = l.map fun a => (a.deployment_id, a.week_start) := by
  rw [List.map_map]
  apply List.map_congr_left
  intro a _
  show ((g a).deployment_id, (g a).week_start) = (a.deployment_id, a.week_start)
  rw [(hg a).1, (hg a).2]

theorem seedRows_nodup_keys (dep : Nat) (c : Int) (ms : List Int)
    (hms : ms.Nodup) (n : Nat) :
    ((seedRows n dep c ms).map fun a => (a.deployment_id, a.week_start)).Nodup := by
  rw [seedRows_key_map]
  exact hms.map fun x y hxy => congrArg Prod.snd hxy

/-- C8: starting from any state satisfying the invariant (with the id bound
the `SERIAL` sequence maintains), every allocation-store operation — seeding
on deployment creation, single-row count update, bulk-set-from, regeneration
(of an existing deployment), and cascading deletion — preserves both the
Monday alignment of every `week_start` and the uniqueness of
`(deployment, week_start)` pairs, as well as the id bound itself. -/
theorem allocation_invariant_preserved (db : DB)
    (hinv : AllocInvariant db) (hb : AllocIdsBounded db) :
    (∀ (pid : Nat) (v l : String) (s e : Int) (dtid : Nat) (c : Int)
        (ap nts : String),
      AllocInvariant (create_deployment db pid v l s e dtid c ap nts).2
      ∧ AllocIdsBounded (create_deployment db pid v l s e dtid c ap nts).2)
    ∧ (∀ (aid : Nat) (n : Int),
      AllocInvariant (update_weekly_allocation db aid n)
      ∧ AllocIdsBounded (update_weekly_allocation db aid n))
    ∧ (∀ (dep : Nat) (n f : Int),
      AllocInvariant (bulk_update_allocations_from db dep n f)
      ∧ AllocIdsBounded (bulk_update_allocations_from db dep n f))
    ∧ (∀ (dep : Nat) (s e : Int) (c : Int), dep < db.next_deployment_id →
      AllocInvariant (regenerate_weekly_allocations db dep s e c)
      ∧ AllocIdsBounded (regenerate_weekly_allocations db dep s e c))
    ∧ (∀ dep : Nat,
      AllocInvariant (delete_deployment db dep)
      ∧ AllocIdsBounded (delete_deployment db dep)) := by
  obtain ⟨hmon, huniq⟩ := hinv
  refine ⟨?_, ?_, ?_, ?_, ?_⟩
  · -- create_deployment
    intro pid v l s e dtid c ap nts
    refine ⟨⟨?_, ?_⟩, ?_⟩
    · intro a ha
      show a.week_start % 7 = 0
      rcases List.mem_append.1 ha with ha | ha
      · exact hmon a ha
      · exact week_mondays_monday (seedRows_week_mem _ _ _ _ _ ha)
    · show ((db.weekly_allocations ++ seedRows db.next_allocation_id
          db.next_deployment_id c (_week_mondays s e)).map
          fun a => (a.deployment_id, a.week_start)).Nodup
      rw [List.map_append]
      rw [List.nodup_append]
      refine ⟨huniq,
        seedRows_nodup_keys _ _ _ (week_mondays_nodup s e) _, ?_⟩
      intro k hk1 hk2
      obtain ⟨a, ha, rfl⟩ := List.mem_map.1 hk1
      obtain ⟨b, hb2, hab⟩ := List.mem_map.1 hk2
      have h1 : a.deployment_id < db.next_deployment_id := hb a ha
      have h2 : b.deployment_id = db.next_deployment_id :=
        seedRows_deployment_id _ _ _ _ _ hb2
      have := congrArg Prod.fst hab
      simp at this
      omega
    · intro a ha
      show a.deployment_id < db.next_deployment_id + 1
      rcases List.mem_append.1 ha with ha | ha
      · have := hb a ha; omega
      · have := seedRows_deployment_id _ _ _ _ _ ha; omega
  · -- update_weekly_allocation
    intro aid n
    have hg : ∀ a : AllocRow,
        ((if a.id = aid then { a with device_count := n } else a) :
          AllocRow).deployment_id = a.deployment_id
        ∧ ((if a.id = aid then { a with device_count := n } else a) :
          AllocRow).week_start = a.week_start := by
      intro a; split <;> exact ⟨rfl, rfl⟩
    refine ⟨⟨?_, ?_⟩, ?_⟩
    · intro a ha
      obtain ⟨b, hbmem, rfl⟩ := List.mem_map.1 ha
      show ((if b.id = aid then { b with device_count := n } else b) :
        AllocRow).week_start % 7 = 0
      rw [(hg b).2]
      exact hmon b hbmem
    · unfold UniqueKeys update_weekly_allocation
      rw [map_key_of_count_rewrite _ _ hg]
      exact huniq
    · intro a ha
      obtain ⟨b, hbmem, rfl⟩ := List.mem_map.1 ha
      show ((if b.id = aid then { b with device_count := n } else b) :
        AllocRow).deployment_id < db.next_deployment_id
      rw [(hg b).1]
      exact hb b hbmem
  · -- bulk_update_allocations_from
    intro dep n f
    have hg : ∀ a : AllocRow,
        ((if a.deployment_id = dep ∧ f ≤ a.week_start then
            { a with device_count := n } else a) :
          AllocRow).deployment_id = a.deployment_id
        ∧ ((if a.deployment_id = dep ∧ f ≤ a.week_start then
            { a with device_count := n } else a) :
          AllocRow).week_start = a.week_start := by
      intro a; split <;> exact ⟨rfl, rfl⟩
    refine ⟨⟨?_, ?_⟩, ?_⟩
    · intro a ha
      obtain ⟨b, hbmem, rfl⟩ := List.mem_map.1 ha
      show ((if b.deployment_id = dep ∧ f ≤ b.week_start then
          { b with device_count := n } else b) : AllocRow).week_start % 7 = 0
      rw [(hg b).2]
      exact hmon b hbmem
    · unfold UniqueKeys bulk_update_allocations_from
      rw [map_key_of_count_rewrite _ _ hg]
      exact huniq
    · intro a ha
      obtain ⟨b, hbmem, rfl⟩ := List.mem_map.1 ha
      show ((if b.deployment_id = dep ∧ f ≤ b.week_start then
          { b with device_count := n } else b) :
        AllocRow).deployment_id < db.next_deployment_id
      rw [(hg b).1]
      exact hb b hbmem
  · -- regenerate_weekly_allocations
    intro dep s e c hdep
    refine ⟨⟨?_, ?_⟩, ?_⟩
    · intro a ha
      show a.week_start % 7 = 0
      rcases List.mem_append.1 ha with ha | ha
      · exact hmon a (List.mem_of_mem_filter ha)
      · exact week_mondays_monday (seedRows_week_mem _ _ _ _ _ ha)
    · show (((db.weekly_allocations.filter fun a => a.deployment_id ≠ dep)
          ++ seedRows db.next_allocation_id dep c (_week_mondays s e)).map
          fun a => (a.deployment_id, a.week_start)).Nodup
      rw [List.map_append, List.nodup_append]
      refine ⟨huniq.sublist ((List.filter_sublist _).map _),
        seedRows_nodup_keys _ _ _ (week_mondays_nodup s e) _, ?_⟩
      intro k hk1 hk2
      obtain ⟨a, ha, rfl⟩ := List.mem_map.1 hk1
      obtain ⟨b, hb2, hab⟩ := List.mem_map.1 hk2
      have h1 : a.deployment_id ≠ dep := by
        have := List.of_mem_filter ha
        simpa using this
      have h2 : b.deployment_id = dep :=
        seedRows_deployment_id _ _ _ _ _ hb2
      have := congrArg Prod.fst hab
      simp at this
      omega
    · intro a ha
      show a.deployment_id < db.next_deployment_id
      rcases List.mem_append.1 ha with ha | ha
      · exact hb a (List.mem_of_mem_filter ha)
      · rw [seedRows_deployment_id _ _ _ _ _ ha]
        exact hdep
  · -- delete_deployment
    intro dep
    refine ⟨⟨?_, ?_⟩, ?_⟩
    · intro a ha
      exact hmon a (List.mem_of_mem_filter ha)
    · exact huniq.sublist ((List.filter_sublist _).map _)
    · intro a ha
      exact hb a (List.mem_of_mem_filter ha)

/-- C8 sample state satisfying the invariant: one deployment with two
Monday-aligned allocation rows. -/
def dbInv : DB :=
  ⟨[⟨1, "Audio Guide", 100, 10⟩], [⟨1, 1, "Hall", "", 0, 13, 1, 5, "", ""⟩],
   [⟨1, 1, 0, 5⟩, ⟨2, 1, 7, 5⟩], 2, 3⟩

/-- Witness for C8: the sample state satisfies the invariant and the id
bound, and (applying the preservation theorem) a single-row count update
preserves the invariant. -/
theorem allocation_invariant_preserved_witness :
    AllocInvariant dbInv ∧ AllocIdsBounded dbInv
    ∧ AllocInvariant (update_weekly_allocation dbInv 1 9) := by
  have hmon : MondayAligned dbInv := by unfold MondayAligned; decide
  have huniq : UniqueKeys dbInv := by unfold UniqueKeys; decide
  have hbd : AllocIdsBounded dbInv := by unfold AllocIdsBounded; decide
  exact ⟨⟨hmon, huniq⟩, hbd,
    ((allocation_invariant_preserved dbInv ⟨hmon, huniq⟩ hbd).2.1 1 9).1⟩

/-! ## Aggregation lemmas (C1) -/

theorem mem_insertRow (r x : FleetRow) :
    ∀ l : List FleetRow, x ∈ insertRow r l ↔ x = r ∨ x ∈ l := by
  intro l
  induction l with
  | nil => simp [insertRow]
  | cons y ys ih =>
    unfold insertRow
    by_cases h : rowLE r y
    · simp [h]
    · simp only [h, if_neg, Bool.false_eq_true, not_false_iff, List.mem_cons, ih]
      tauto

theorem mem_sortRows (x : FleetRow) :
    ∀ l : List FleetRow, x ∈ sortRows l ↔ x ∈ l := by
  intro l
  induction l with
  | nil => simp [sortRows]
  | cons y ys ih =>
    unfold sortRows
    rw [mem_insertRow, ih, List.mem_cons]

/-- Under a duplicate-free key map, filtering a list by one key value yields
the `find?` result (and nothing else). -/
theorem filter_key_unique {α β : Type} [DecidableEq β] (f : α → β) (i : β) :
    ∀ l : List α, (l.map f).Nodup →
      (l.filter fun x => f x = i) = (l.find? fun x => f x = i).toList := by
  intro l
  induction l with
  | nil => intro _; rfl
  | cons x xs ih =>
    intro hnd
    rw [List.map_cons, List.nodup_cons] at hnd
    obtain ⟨hx, hnd⟩ := hnd
    by_cases hfx : f x = i
    · rw [List.filter_cons_of_pos (by simp [hfx]),
        List.find?_cons_of_pos _ (by simp [hfx])]
      have hnil : (xs.filter fun y => f y = i) = [] := by
        rw [List.filter_eq_nil_iff]
        intro y hy
        simp only [decide_eq_true_eq]
        intro hfy
        apply hx
        rw [hfx, ← hfy]
        exact List.mem_map_of_mem f hy
      rw [hnil]
      rfl
    · rw [List.filter_cons_of_neg (by simp [hfx]),
        List.find?_cons_of_neg _ (by simp [hfx])]
      exact ih hnd

/-- Under a duplicate-free key map, `find?` on a member's key returns exactly
that member. -/
theorem find_key_of_mem {α β : Type} [DecidableEq β] (f : α → β) :
    ∀ (l : List α) (x : α), (l.map f).Nodup → x ∈ l →
      (l.find? fun y => f y = f x) = some x := by
  intro l
  induction l with
  | nil => intro x _ hx; simp at hx
  | cons z zs ih =>
    intro x hnd hx
    rw [List.map_cons, List.nodup_cons] at hnd
    obtain ⟨hz, hnd⟩ := hnd
    rcases List.mem_cons.1 hx with rfl | hx
    · rw [List.find?_cons_of_pos _ (by simp)]
    · by_cases hfz : f z = f x
      · exact absurd (hfz ▸ List.mem_map_of_mem f hx) hz
      · rw [List.find?_cons_of_neg _ (by simp [hfz])]
        exact ih x hnd hx

/-- Every join tuple's device-type row comes from the `device_types` table. -/
theorem joinAux_dt_mem (allocs : List AllocRow) (deps : List DeploymentRow)
    (dts : List DeviceTypeRow) (j : JoinRow) (hj : j ∈ joinAux allocs deps dts) :
    j.dt ∈ dts := by
  unfold joinAux at hj
  obtain ⟨a, _, hj⟩ := List.mem_flatMap.1 hj
  obtain ⟨d, _, hj⟩ := List.mem_flatMap.1 hj
  obtain ⟨t, ht, rfl⟩ := List.mem_map.1 hj
  exact List.mem_of_mem_filter ht

/-- Sums of a projection over a `flatMap` decompose into a sum of sums. -/
theorem sum_map_flatMap (g : JoinRow → Int) (f : AllocRow → List JoinRow) :
    ∀ l : List AllocRow,
      ((l.flatMap f).map g).sum = (l.map fun a => ((f a).map g).sum).sum := by
  intro l
  induction l with
  | nil => rfl
  | cons a as ih => simp [List.flatMap_cons, ih]

/-- Summing an `if C then count else 0` over a list is summing `count` over
the `C`-filtered list. -/
theorem sum_ite_count (C : AllocRow → Prop) [DecidablePred C] :
    ∀ l : List AllocRow,
      (l.map fun a => if C a then a.device_count else 0).sum
        = ((l.filter fun a => C a).map fun a => a.device_count).sum := by
  intro l
  induction l with
  | nil => rfl
  | cons a as ih =>
    by_cases h : C a
    · simp [h, ih]
    · simp [h, ih]

/-- The contribution of a single allocation row to one `(week, device-type)`
group of the filtered join: its `device_count` when its anchor is that week
and its owning deployment references that device type, and 0 otherwise
(unique deployment/device-type ids; the group's week lies inside the queried
range and its device type passes the filter). -/
theorem allocJoin_group_sum (deps : List DeploymentRow)
    (dts : List DeviceTypeRow)
    (hd : (deps.map fun d => d.id).Nodup)
    (ht : (dts.map fun t => t.id).Nodup)
    (s e : Int) (filt : Option Nat) (w : Int) (dt0 : DeviceTypeRow)
    (hdt0 : dt0 ∈ dts) (hs : s ≤ w) (he : w ≤ e)
    (hpass : dtFilterPass filt dt0.id = true) (a : AllocRow) :
    (((((allocJoinRows deps dts a).filter fun j =>
            s ≤ j.week_start ∧ j.week_start ≤ e
              ∧ dtFilterPass filt j.dt.id).filter
          fun j => rowKey j = (w, dt0)).map fun j => j.device_count).sum)
      = if a.week_start = w
            ∧ ((deps.find? fun d => d.id = a.deployment_id).map
                fun d => d.device_type_id) = some dt0.id
        then a.device_count else 0 := by
  unfold allocJoinRows
  rw [filter_key_unique (fun d => d.id) a.deployment_id deps hd]
  cases hfd : deps.find? fun d => d.id = a.deployment_id with
  | none => simp
  | some d =>
    simp only [Option.toList_some, List.flatMap_cons, List.flatMap_nil,
      List.append_nil, Option.map_some]
    rw [filter_key_unique (fun t => t.id) d.device_type_id dts ht]
    cases hft : dts.find? fun t => t.id = d.device_type_id with
    | none =>
      have hne : d.device_type_id ≠ dt0.id := by
        intro hid
        have h1 : (dts.find? fun y => y.id = dt0.id) = some dt0 :=
          find_key_of_mem (fun y : DeviceTypeRow => y.id) dts dt0 ht hdt0
        rw [← hid] at h1
        rw [hft] at h1
        simp at h1
      simp [hne]
    | some t =>
      have htid : t.id = d.device_type_id := by
        have := List.find?_some hft
        simpa using this
      by_cases hC : a.week_start = w ∧ d.device_type_id = dt0.id
      · obtain ⟨hw, hid⟩ := hC
        have ht0 : t = dt0 := by
          have h1 : (dts.find? fun y => y.id = dt0.id) = some dt0 :=
            find_key_of_mem (fun y : DeviceTypeRow => y.id) dts dt0 ht hdt0
          rw [← hid] at h1
          rw [hft] at h1
          exact Option.some.inj h1
        subst ht0
        simp [rowKey, hw, hs, he, hpass, hid]
      · have hkey : ¬ (((a.week_start, t) : Int × DeviceTypeRow) = (w, dt0)) := by
          intro hk
          rw [Prod.mk.injEq] at hk
          apply hC
          refine ⟨hk.1, ?_⟩
          rw [← htid, hk.2]
        simp only [Option.toList_some, List.map_cons, List.map_nil]
        by_cases hP : s ≤ a.week_start ∧ a.week_start ≤ e
            ∧ dtFilterPass filt t.id = true
        · rw [List.filter_cons_of_pos (by simp [hP.1, hP.2.1, hP.2.2])]
          rw [List.filter_cons_of_neg (by simp [rowKey, hkey])]
          simp [hC]
        · rw [List.filter_cons_of_neg (by simpa using hP)]
          simp [hC]

/-- The `SUM(wa.device_count)` of one `(week, device-type)` group of the
filtered join equals the sum of `device_count` over exactly the allocation
rows whose anchor is that week and whose owning deployment references that
device type. -/
theorem filtered_group_sum (db : DB) (s e : Int) (filt : Option Nat)
    (hd : (db.deployments.map fun d => d.id).Nodup)
    (ht : (db.device_types.map fun t => t.id).Nodup)
    (w : Int) (dt0 : DeviceTypeRow) (hdt0 : dt0 ∈ db.device_types)
    (hs : s ≤ w) (he : w ≤ e) (hpass : dtFilterPass filt dt0.id = true) :
    (((filteredRows db s e filt).filter fun j => rowKey j = (w, dt0)).map
        fun j => j.device_count).sum
      = ((db.weekly_allocations.filter fun a =>
            a.week_start = w ∧ ownerDeviceType db a = some dt0.id).map
          fun a => a.device_count).sum := by
  unfold filteredRows joinedRows joinAux
  rw [List.filter_flatMap, List.filter_flatMap, sum_map_flatMap]
  have hcongr :
      (db.weekly_allocations.map fun a =>
        ((((allocJoinRows db.deployments db.device_types a).filter fun j =>
              s ≤ j.week_start ∧ j.week_start ≤ e
                ∧ dtFilterPass filt j.dt.id).filter
            fun j => rowKey j = (w, dt0)).map fun j => j.device_count).sum)
      = db.weekly_allocations.map fun a =>
          if a.week_start = w ∧ ownerDeviceType db a = some dt0.id
          then a.device_count else 0 := by
    apply List.map_congr_left
    intro a _
    exact allocJoin_group_sum db.deployments db.device_types hd ht s e filt
      w dt0 hdt0 hs he hpass a
  rw [hcongr]
  exact sum_ite_count _ db.weekly_allocations

/-- C1: in every row of `get_fleet_usage_by_week` (over any range, with or
without a device-type filter, on a database whose deployment and device-type
ids are unique as the `SERIAL` primary keys guarantee), `total_in_use` is
the sum of `device_count` over exactly the allocation rows whose owning
deployment references the row's device type and whose `week_start` equals
the row's week anchor — each such allocation counted exactly once, none
dropped — and `available` is exactly
`total_fleet - under_repair - total_in_use`, never clamped, hence negative
precisely when usage exceeds effective capacity. -/
theorem fleet_usage_conservation (db : DB) (s e : Int) (filt : Option Nat)
    (hd : (db.deployments.map fun d => d.id).Nodup)
    (ht : (db.device_types.map fun t => t.id).Nodup) :
    ∀ r ∈ get_fleet_usage_by_week db s e filt,
      r.total_in_use
        = ((db.weekly_allocations.filter fun a =>
              a.week_start = r.week_start
                ∧ ownerDeviceType db a = some r.device_type_id).map
            fun a => a.device_count).sum
      ∧ r.available = r.total_fleet - r.under_repair - r.total_in_use := by
  intro r hr
  unfold get_fleet_usage_by_week at hr
  rw [mem_sortRows] at hr
  obtain ⟨k, hk, rfl⟩ := List.mem_map.1 hr
  rw [List.mem_dedup] at hk
  obtain ⟨j, hj, hkey⟩ := List.mem_map.1 hk
  have hmem := List.mem_filter.1 hj
  have hP : s ≤ j.week_start ∧ j.week_start ≤ e
      ∧ dtFilterPass filt j.dt.id = true := by
    simpa using hmem.2
  have hdtm : j.dt ∈ db.device_types :=
    joinAux_dt_mem db.weekly_allocations db.deployments db.device_types j hmem.1
  subst hkey
  refine ⟨?_, rfl⟩
  show (((filteredRows db s e filt).filter
      fun j2 => rowKey j2 = (j.week_start, j.dt)).map
      fun j2 => j2.device_count).sum = _
  exact filtered_group_sum db s e filt hd ht j.week_start j.dt hdtm
    hP.1 hP.2.1 hP.2.2

/-- C1 sample state: one device type (fleet 100, repair 10), two deployments
of it, three allocation rows — two sharing the week anchor 0. -/
def dbAgg : DB :=
  ⟨[⟨1, "Audio Guide", 100, 10⟩],
   [⟨1, 1, "Hall A", "", 0, 13, 1, 5, "", ""⟩,
    ⟨2, 1, "Hall B", "", 0, 6, 1, 4, "", ""⟩],
   [⟨1, 1, 0, 5⟩, ⟨2, 1, 7, 5⟩, ⟨3, 2, 0, 4⟩], 3, 4⟩

/-- Witness for C1: on the sample state the aggregation returns week 0 with
`total_in_use = 5 + 4 = 9` (`available = 81`) and week 7 with
`total_in_use = 5` (`available = 85`), and the conservation theorem applies. -/
theorem fleet_usage_conservation_witness :
    (dbAgg.deployments.map fun d => d.id).Nodup
    ∧ (dbAgg.device_types.map fun t => t.id).Nodup
    ∧ get_fleet_usage_by_week dbAgg 0 7 none
        = [⟨0, 1, "Audio Guide", 100, 10, 9, 81⟩,
           ⟨7, 1, "Audio Guide", 100, 10, 5, 85⟩]
    ∧ (∀ r ∈ get_fleet_usage_by_week dbAgg 0 7 none,
        r.total_in_use
          = ((dbAgg.weekly_allocations.filter fun a =>
                a.week_start = r.week_start
                  ∧ ownerDeviceType dbAgg a = some r.device_type_id).map
              fun a => a.device_count).sum
        ∧ r.available = r.total_fleet - r.under_repair - r.total_in_use) :=
  ⟨by decide, by decide, by decide,
   fleet_usage_conservation dbAgg 0 7 none (by decide) (by decide)⟩
